import Mathlib

/-!
Formal model of the transaction core of an Ethereum execution-layer client at
the Prague hardfork, shallowly embedded from `src/ethereum/prague/transactions.py`:
transaction variants, the typed-envelope codec over RLP, intrinsic-gas
accounting, and sender-recovery signature validation.

Bytes are modelled as `List Nat` (each element a byte value), machine integers
as `Nat` with explicit bounds where width matters, and fallible operations as
`Except`/`Option`.  External collaborators (the RLP codec, `keccak256`,
`secp256k1_recover`, the EVM constants) are either modelled from their
documented contracts or passed as explicit function parameters.
-/

namespace EthTx

/-- Gas cost constants, taken verbatim from the source module. -/
def TX_BASE_COST : Nat := 21000

def FLOOR_CALLDATA_COST : Nat := 10

def STANDARD_CALLDATA_TOKEN_COST : Nat := 4

def TX_CREATE_COST : Nat := 32000

def TX_ACCESS_LIST_ADDRESS_COST : Nat := 2400

def TX_ACCESS_LIST_STORAGE_KEY_COST : Nat := 1900

/-- Legacy transaction record (`LegacyTransaction` in the source).  The `to`
field is `Union[Bytes0, Address]` in the source; at runtime both are plain
byte strings, with the empty string as the contract-creation sentinel, so it
is modelled as a byte list. -/
structure LegacyTransaction where
  nonce : Nat
  gas_price : Nat
  gas : Nat
  «to» : List Nat
  value : Nat
  data : List Nat
  v : Nat
  r : Nat
  s : Nat
  deriving DecidableEq, Repr

/-- An access-list entry (`Access` in the source): an account address and a
sequence of storage slots (each a 32-byte value). -/
structure Access where
  account : List Nat
  slots : List (List Nat)
  deriving DecidableEq, Repr

/-- EIP-2930 access-list transaction (`AccessListTransaction` in the source). -/
structure AccessListTransaction where
  chain_id : Nat
  nonce : Nat
  gas_price : Nat
  gas : Nat
  «to» : List Nat
  value : Nat
  data : List Nat
  access_list : List Access
  y_parity : Nat
  r : Nat
  s : Nat
  deriving DecidableEq, Repr

/-- EIP-1559 fee-market transaction (`FeeMarketTransaction` in the source). -/
structure FeeMarketTransaction where
  chain_id : Nat
  nonce : Nat
  max_priority_fee_per_gas : Nat
  max_fee_per_gas : Nat
  gas : Nat
  «to» : List Nat
  value : Nat
  data : List Nat
  access_list : List Access
  y_parity : Nat
  r : Nat
  s : Nat
  deriving DecidableEq, Repr

/-- EIP-4844 blob transaction (`BlobTransaction` in the source); `to` is a
plain `Address` (20 bytes), contract creation is excluded by well-formedness. -/
structure BlobTransaction where
  chain_id : Nat
  nonce : Nat
  max_priority_fee_per_gas : Nat
  max_fee_per_gas : Nat
  gas : Nat
  «to» : List Nat
  value : Nat
  data : List Nat
  access_list : List Access
  max_fee_per_blob_gas : Nat
  blob_versioned_hashes : List (List Nat)
  y_parity : Nat
  r : Nat
  s : Nat
  deriving DecidableEq, Repr

/-- Modelled from the spec: the `Authorization` record of `fork_types` (not
under `src/`), which per the spec carries a chain id, a delegated address, a
nonce, and its own `(y_parity, r, s)` signature triple (spec section 3.3). -/
structure Authorization where
  chain_id : Nat
  address : List Nat
  nonce : Nat
  y_parity : Nat
  r : Nat
  s : Nat
  deriving DecidableEq, Repr

/-- EIP-7702 set-code transaction (`SetCodeTransaction` in the source). -/
structure SetCodeTransaction where
  chain_id : Nat
  nonce : Nat
  max_priority_fee_per_gas : Nat
  max_fee_per_gas : Nat
  gas : Nat
  «to» : List Nat
  value : Nat
  data : List Nat
  access_list : List Access
  authorizations : List Authorization
  y_parity : Nat
  r : Nat
  s : Nat
  deriving DecidableEq, Repr

/-- The closed union of the five transaction variants (`Transaction` in the
source). -/
inductive Transaction where
  | legacy (tx : LegacyTransaction)
  | accessList (tx : AccessListTransaction)
  | feeMarket (tx : FeeMarketTransaction)
  | blob (tx : BlobTransaction)
  | setCode (tx : SetCodeTransaction)
  deriving DecidableEq, Repr

/-- Duck-typed field access `tx.data` used by the source on every variant. -/
def Transaction.data : Transaction → List Nat
  | .legacy tx => tx.data
  | .accessList tx => tx.data
  | .feeMarket tx => tx.data
  | .blob tx => tx.data
  | .setCode tx => tx.data

/-- Duck-typed field access `tx.«to»` used by the source on every variant. -/
def Transaction.«to» : Transaction → List Nat
  | .legacy tx => tx.«to»
  | .accessList tx => tx.«to»
  | .feeMarket tx => tx.«to»
  | .blob tx => tx.«to»
  | .setCode tx => tx.«to»

/-- Duck-typed field access `tx.gas` used by the source on every variant. -/
def Transaction.gas : Transaction → Nat
  | .legacy tx => tx.gas
  | .accessList tx => tx.gas
  | .feeMarket tx => tx.gas
  | .blob tx => tx.gas
  | .setCode tx => tx.gas

/-- Duck-typed field access `tx.nonce` used by the source on every variant. -/
def Transaction.nonce : Transaction → Nat
  | .legacy tx => tx.nonce
  | .accessList tx => tx.nonce
  | .feeMarket tx => tx.nonce
  | .blob tx => tx.nonce
  | .setCode tx => tx.nonce

/-- Duck-typed field access `tx.r` used by the source on every variant. -/
def Transaction.r : Transaction → Nat
  | .legacy tx => tx.r
  | .accessList tx => tx.r
  | .feeMarket tx => tx.r
  | .blob tx => tx.r
  | .setCode tx => tx.r

/-- Duck-typed field access `tx.s` used by the source on every variant. -/
def Transaction.s : Transaction → Nat
  | .legacy tx => tx.s
  | .accessList tx => tx.s
  | .feeMarket tx => tx.s
  | .blob tx => tx.s
  | .setCode tx => tx.s

/-- The access-list entries carried by a transaction: empty for legacy, the
`access_list` field for the four typed variants (the source's `isinstance`
dispatch). -/
def Transaction.accessEntries : Transaction → List Access
  | .legacy _ => []
  | .accessList tx => tx.access_list
  | .feeMarket tx => tx.access_list
  | .blob tx => tx.access_list
  | .setCode tx => tx.access_list

/-- The zero-byte counting loop of `calculate_intrinsic_cost`:
`for byte in tx.data: if byte == 0: zero_bytes += 1`. -/
def zeroBytesCount (data : List Nat) : Nat :=
  data.foldl (fun acc byte => if byte = 0 then acc + 1 else acc) 0

/-- The access-list costing loop of `calculate_intrinsic_cost`: each entry
adds `TX_ACCESS_LIST_ADDRESS_COST` plus a per-slot storage-key cost. -/
def accessListCostLoop (accesses : List Access) : Nat :=
  accesses.foldl
    (fun acc a =>
      acc + TX_ACCESS_LIST_ADDRESS_COST
        + a.slots.length * TX_ACCESS_LIST_STORAGE_KEY_COST)
    0

/-- Embedding of `calculate_intrinsic_cost`.  The EVM collaborators
`init_code_cost` and `PER_EMPTY_ACCOUNT_COST` are not part of this module and
are passed as parameters (`initCodeCost`, `perEmptyAccountCost`).  Returns
`(intrinsic_gas, calldata_floor_gas_cost)`. -/
def calculate_intrinsic_cost (initCodeCost : Nat → Nat)
    (perEmptyAccountCost : Nat) (tx : Transaction) : Nat × Nat :=
  let zero_bytes := zeroBytesCount tx.data
  let tokens_in_calldata := zero_bytes + (tx.data.length - zero_bytes) * 4
  let calldata_floor_gas_cost :=
    tokens_in_calldata * FLOOR_CALLDATA_COST + TX_BASE_COST
  let data_cost := tokens_in_calldata * STANDARD_CALLDATA_TOKEN_COST
  let create_cost :=
    if tx.«to» = [] then TX_CREATE_COST + initCodeCost tx.data.length else 0
  let access_list_cost :=
    match tx with
    | .legacy _ => 0
    | .accessList t => accessListCostLoop t.access_list
    | .feeMarket t => accessListCostLoop t.access_list
    | .blob t => accessListCostLoop t.access_list
    | .setCode t => accessListCostLoop t.access_list
  let auth_cost :=
    match tx with
    | .setCode t => perEmptyAccountCost * t.authorizations.length
    | _ => 0
  (TX_BASE_COST + data_cost + create_cost + access_list_cost + auth_cost,
    calldata_floor_gas_cost)

/-- Spec-side formula: `tokens_in_calldata = zero_bytes + 4 * (len − zero_bytes)`
with `zero_bytes` the number of `0x00` bytes of the calldata. -/
def spec_tokens_in_calldata (data : List Nat) : Nat :=
  data.count 0 + 4 * (data.length - data.count 0)

/-- Spec-side formula: `calldata_floor_gas_cost = tokens_in_calldata * 10 + 21000`. -/
def spec_calldata_floor_gas_cost (data : List Nat) : Nat :=
  spec_tokens_in_calldata data * 10 + 21000

/-- Number of authorizations carried by a transaction: the length of the
`authorizations` field for set-code transactions, `0` otherwise. -/
def Transaction.authCount : Transaction → Nat
  | .setCode tx => tx.authorizations.length
  | _ => 0

/-- Spec-side formula for the intrinsic gas:
`21000 + tokens * 4 + create_cost + access_list_cost + auth_cost`, with
`create_cost = 32000 + init_code_cost(len(data))` exactly for creation
transactions, the access-list cost a sum of `2400 + 1900 * len(slots)` over
the entries, and `auth_cost = PER_EMPTY_ACCOUNT_COST * len(authorizations)`
for set-code transactions. -/
def spec_intrinsic_gas (initCodeCost : Nat → Nat) (perEmptyAccountCost : Nat)
    (tx : Transaction) : Nat :=
  21000 + spec_tokens_in_calldata tx.data * 4
    + (if tx.«to» = [] then 32000 + initCodeCost tx.data.length else 0)
    + ((tx.accessEntries.map (fun a => 2400 + 1900 * a.slots.length)).sum)
    + perEmptyAccountCost * tx.authCount

theorem zeroBytesCount_eq_count (data : List Nat) :
    zeroBytesCount data = data.count 0 := by
  suffices h : ∀ (l : List Nat) (acc : Nat),
      l.foldl (fun acc byte => if byte = 0 then acc + 1 else acc) acc
        = acc + l.count 0 by
    simpa [zeroBytesCount] using h data 0
  intro l
  induction l with
  | nil => simp
  | cons b bs ih =>
      intro acc
      by_cases hb : b = 0 <;>
        simp [List.count_cons, ih, hb, Nat.add_comm, Nat.add_assoc,
          Nat.add_left_comm, eq_comm]

theorem accessListCostLoop_eq_sum (accesses : List Access) :
    accessListCostLoop accesses
      = (accesses.map (fun a => 2400 + 1900 * a.slots.length)).sum := by
  suffices h : ∀ (l : List Access) (acc : Nat),
      l.foldl
        (fun acc a =>
          acc + TX_ACCESS_LIST_ADDRESS_COST
            + a.slots.length * TX_ACCESS_LIST_STORAGE_KEY_COST) acc
        = acc + (l.map (fun a => 2400 + 1900 * a.slots.length)).sum by
    simpa [accessListCostLoop] using h accesses 0
  intro l
  induction l with
  | nil => simp
  | cons a as ih =>
      intro acc
      rw [List.foldl_cons, ih]
      simp only [List.map_cons, List.sum_cons, TX_ACCESS_LIST_ADDRESS_COST,
        TX_ACCESS_LIST_STORAGE_KEY_COST]
      ring

/-- Number of zero bytes never exceeds the length. -/
theorem count_zero_le_length (data : List Nat) : data.count 0 ≤ data.length :=
  List.count_le_length 0 data

/-- The source computation of `calculate_intrinsic_cost` agrees with the
spec-side closed formulas (shared helper behind several results). -/
theorem intrinsic_cost_eq (initCodeCost : Nat → Nat) (perEmptyAccountCost : Nat)
    (tx : Transaction) :
    calculate_intrinsic_cost initCodeCost perEmptyAccountCost tx
      = (spec_intrinsic_gas initCodeCost perEmptyAccountCost tx,
         spec_calldata_floor_gas_cost tx.data) := by
  cases tx <;>
    · simp only [calculate_intrinsic_cost, spec_intrinsic_gas,
        spec_calldata_floor_gas_cost, spec_tokens_in_calldata,
        zeroBytesCount_eq_count, accessListCostLoop_eq_sum,
        Transaction.data, Transaction.«to», Transaction.accessEntries,
        Transaction.authCount, TX_BASE_COST, FLOOR_CALLDATA_COST,
        STANDARD_CALLDATA_TOKEN_COST, TX_CREATE_COST, List.map_nil,
        List.sum_nil, Prod.mk.injEq]
      constructor <;> ring

/-- Embedding of `validate_transaction`.  `MAX_CODE_SIZE` belongs to the EVM
interpreter collaborator and is passed as the parameter `maxCodeSize`; the
nonce cap `2 ^ 64 - 1` is `U64.MAX_VALUE` of the source.  Checks run in source
order: gas, then nonce, then init-code size. -/
def validate_transaction (initCodeCost : Nat → Nat) (perEmptyAccountCost : Nat)
    (maxCodeSize : Nat) (tx : Transaction) : Except String (Nat × Nat) :=
  let p := calculate_intrinsic_cost initCodeCost perEmptyAccountCost tx
  if max p.1 p.2 > tx.gas then
    .error "Insufficient gas"
  else if tx.nonce ≥ 2 ^ 64 - 1 then
    .error "Nonce too high"
  else if tx.«to» = [] ∧ tx.data.length > 2 * maxCodeSize then
    .error "Code size too large"
  else
    .ok p

/-- Replace the calldata of a transaction, leaving every other field alone. -/
def Transaction.withData (tx : Transaction) (d : List Nat) : Transaction :=
  match tx with
  | .legacy t => .legacy { t with data := d }
  | .accessList t => .accessList { t with data := d }
  | .feeMarket t => .feeMarket { t with data := d }
  | .blob t => .blob { t with data := d }
  | .setCode t => .setCode { t with data := d }

@[simp]
theorem withData_data (tx : Transaction) (d : List Nat) :
    (tx.withData d).data = d := by
  cases tx <;> rfl

@[simp]
theorem withData_to (tx : Transaction) (d : List Nat) :
    (tx.withData d).«to» = tx.«to» := by
  cases tx <;> rfl

@[simp]
theorem withData_accessEntries (tx : Transaction) (d : List Nat) :
    (tx.withData d).accessEntries = tx.accessEntries := by
  cases tx <;> rfl

@[simp]
theorem withData_authCount (tx : Transaction) (d : List Nat) :
    (tx.withData d).authCount = tx.authCount := by
  cases tx <;> rfl

/-- C1: `calculate_intrinsic_cost(tx)` returns the pair
`(intrinsic_gas, calldata_floor_gas_cost)` where, with `zero_bytes` the number
of `0x00` bytes of `tx.data` and `tokens = zero_bytes + 4 * (len − zero_bytes)`:
the floor cost is `tokens * 10 + 21000`, and the intrinsic gas is
`21000 + tokens * 4 + create_cost + access_list_cost + auth_cost` with
`create_cost = 32000 + init_code_cost(len(tx.data))` exactly for creation
transactions, `access_list_cost = Σ (2400 + 1900 * len(slots))` over the access
entries (empty for legacy, duplicates billed), and
`auth_cost = PER_EMPTY_ACCOUNT_COST * len(authorizations)` for set-code
transactions and `0` otherwise. -/
theorem claim_C1_intrinsic_cost_formula (initCodeCost : Nat → Nat)
    (perEmptyAccountCost : Nat) (tx : Transaction) :
    calculate_intrinsic_cost initCodeCost perEmptyAccountCost tx
      = (spec_intrinsic_gas initCodeCost perEmptyAccountCost tx,
         spec_calldata_floor_gas_cost tx.data) :=
  intrinsic_cost_eq initCodeCost perEmptyAccountCost tx

/-- C2: `validate_transaction(tx)` fails with `"Insufficient gas"` when
`max(intrinsic_gas, calldata_floor_gas_cost) > tx.gas`, then with
`"Nonce too high"` when `tx.nonce ≥ 2^64 − 1`, then with
`"Code size too large"` when `tx.to` is the creation sentinel and
`len(tx.data) > 2 * MAX_CODE_SIZE`, and otherwise returns exactly the pair
computed by `calculate_intrinsic_cost(tx)`. -/
theorem claim_C2_validate_transaction (initCodeCost : Nat → Nat)
    (perEmptyAccountCost : Nat) (maxCodeSize : Nat) (tx : Transaction) :
    validate_transaction initCodeCost perEmptyAccountCost maxCodeSize tx
      = (if max (spec_intrinsic_gas initCodeCost perEmptyAccountCost tx)
              (spec_calldata_floor_gas_cost tx.data) > tx.gas then
           .error "Insufficient gas"
         else if tx.nonce ≥ 2 ^ 64 - 1 then
           .error "Nonce too high"
         else if tx.«to» = [] ∧ tx.data.length > 2 * maxCodeSize then
           .error "Code size too large"
         else
           .ok (spec_intrinsic_gas initCodeCost perEmptyAccountCost tx,
                spec_calldata_floor_gas_cost tx.data)) := by
  simp only [validate_transaction, intrinsic_cost_eq]

/-- C8: appending any byte to `tx.data` strictly increases the intrinsic gas
returned by `calculate_intrinsic_cost`, for every variant, both creation and
call transactions, and both zero and nonzero appended bytes, provided the
collaborator `init_code_cost` is monotone (true of the EIP-3860 word cost). -/
theorem claim_C8_gas_monotonic_in_calldata (initCodeCost : Nat → Nat)
    (perEmptyAccountCost : Nat) (tx : Transaction) (b : Nat)
    (hmono : ∀ x y, x ≤ y → initCodeCost x ≤ initCodeCost y) :
    (calculate_intrinsic_cost initCodeCost perEmptyAccountCost tx).1
      < (calculate_intrinsic_cost initCodeCost perEmptyAccountCost
          (tx.withData (tx.data ++ [b]))).1 := by
  rw [intrinsic_cost_eq, intrinsic_cost_eq]
  simp only [spec_intrinsic_gas, withData_data, withData_to,
    withData_accessEntries, withData_authCount]
  have hic : initCodeCost tx.data.length ≤ initCodeCost (tx.data ++ [b]).length := by
    apply hmono
    simp
  have htok : spec_tokens_in_calldata tx.data + 1
      ≤ spec_tokens_in_calldata (tx.data ++ [b]) := by
    have hcle := count_zero_le_length tx.data
    simp only [spec_tokens_in_calldata, List.count_append, List.length_append,
      List.length_cons, List.length_nil]
    by_cases hb : b = 0
    · subst hb
      simp only [List.count_cons, List.count_nil]
      simp
      omega
    · have hcb : List.count 0 [b] = 0 := by
        simp [List.count_cons, List.count_nil]
        omega
      rw [hcb]
      omega
  by_cases hto : tx.«to» = [] <;> simp only [hto, if_true, if_false] <;> omega

/-- Concrete legacy creation transaction used to witness the monotonicity
result. -/
def txMonoW : Transaction :=
  .legacy { nonce := 0, gas_price := 1, gas := 100000, «to» := [], value := 0,
            data := [0, 7], v := 27, r := 1, s := 1 }

theorem claim_C8_witness :
    (calculate_intrinsic_cost id 0 txMonoW).1
      < (calculate_intrinsic_cost id 0 (txMonoW.withData (txMonoW.data ++ [5]))).1 :=
  claim_C8_gas_monotonic_in_calldata id 0 txMonoW 5 (fun x y h => h)

/-- Modelled from the spec: big-endian minimum-width byte representation of an
unsigned integer as used by the RLP collaborator (spec section 6.2); zero is
the empty byte string. -/
def natToBytes (n : Nat) : List Nat :=
  if h : n = 0 then [] else natToBytes (n / 256) ++ [n % 256]
termination_by n
decreasing_by exact Nat.div_lt_self (Nat.pos_of_ne_zero h) (by omega)

/-- Big-endian interpretation of a byte string as an unsigned integer. -/
def natFromBytes (bs : List Nat) : Nat :=
  bs.foldl (fun acc b => acc * 256 + b) 0

theorem natFromBytes_append_single (bs : List Nat) (b : Nat) :
    natFromBytes (bs ++ [b]) = natFromBytes bs * 256 + b := by
  simp [natFromBytes, List.foldl_append]

theorem natFromBytes_natToBytes (n : Nat) :
    natFromBytes (natToBytes n) = n := by
  induction n using Nat.strong_induction_on with
  | _ n ih =>
    by_cases h : n = 0
    · subst h
      simp [natToBytes, natFromBytes]
    · rw [natToBytes, dif_neg h, natFromBytes_append_single,
        ih (n / 256) (Nat.div_lt_self (Nat.pos_of_ne_zero h) (by omega))]
      rw [Nat.mul_comm]
      exact Nat.div_add_mod n 256

theorem natToBytes_length_le (k : Nat) :
    ∀ n : Nat, n < 256 ^ k → (natToBytes n).length ≤ k := by
  induction k with
  | zero =>
      intro n hn
      interval_cases n
      simp [natToBytes]
  | succ k ih =>
      intro n hn
      by_cases h : n = 0
      · subst h
        simp [natToBytes]
      · rw [natToBytes, dif_neg h]
        have hdiv : n / 256 < 256 ^ k := by
          apply Nat.div_lt_of_lt_mul
          calc n < 256 ^ (k + 1) := hn
            _ = 256 * 256 ^ k := by ring
        have := ih (n / 256) hdiv
        simp only [List.length_append, List.length_cons, List.length_nil]
        omega

theorem natToBytes_ne_nil {n : Nat} (h : 0 < n) : natToBytes n ≠ [] := by
  rw [natToBytes, dif_neg (by omega)]
  simp

/-- The leading byte of a nonzero big-endian representation is nonzero (the
RLP collaborator forbids leading zero bytes in integer encodings). -/
theorem natToBytes_head_ne_zero :
    ∀ n : Nat, 0 < n → ∃ b bs, natToBytes n = b :: bs ∧ b ≠ 0 := by
  intro n
  induction n using Nat.strong_induction_on with
  | _ n ih =>
    intro hn
    rw [natToBytes, dif_neg (by omega)]
    by_cases hsmall : n < 256
    · have h0 : n / 256 = 0 := Nat.div_eq_of_lt hsmall
      refine ⟨n % 256, [], ?_, ?_⟩
      · rw [h0]
        simp [natToBytes]
      · rw [Nat.mod_eq_of_lt hsmall]
        omega
    · have hpos : 0 < n / 256 := by
        apply Nat.div_pos
        · omega
        · omega
      obtain ⟨b, bs, heq, hb⟩ :=
        ih (n / 256) (Nat.div_lt_self hn (by omega)) hpos
      exact ⟨b, bs ++ [n % 256], by rw [heq]; simp, hb⟩

/-- An RLP item (the value space of the collaborator codec of spec section
6.2): a byte string or a list of items. -/
inductive RLPItem where
  | bytes (bs : List Nat)
  | list (items : List RLPItem)

mutual

/-- Modelled from the spec: the RLP encoding of an item (spec section 6.2) —
single bytes below `0x80` stand for themselves, short strings and lists carry
a one-byte length prefix, long ones a big-endian length-of-length prefix. -/
def encodeItem : RLPItem → List Nat
  | .bytes bs =>
    if bs.length = 1 ∧ bs.head! < 128 then bs
    else if bs.length ≤ 55 then (128 + bs.length) :: bs
    else
      let lenB := natToBytes bs.length
      (183 + lenB.length) :: (lenB ++ bs)
  | .list items =>
    let payload := encodeList items
    if payload.length ≤ 55 then (192 + payload.length) :: payload
    else
      let lenB := natToBytes payload.length
      (247 + lenB.length) :: (lenB ++ payload)

/-- RLP encoding of a sequence of items: the concatenation of the element
encodings (the body of a list encoding). -/
def encodeList : List RLPItem → List Nat
  | [] => []
  | it :: its => encodeItem it ++ encodeList its

end

mutual

/-- Fuel-indexed RLP item parser: consumes one item from the front of the
input and returns it with the unconsumed remainder. -/
def decItem : Nat → List Nat → Option (RLPItem × List Nat)
  | 0, _ => none
  | _ + 1, [] => none
  | fuel + 1, b :: rest =>
    if b < 128 then some (.bytes [b], rest)
    else if b ≤ 183 then
      let n := b - 128
      if rest.length < n then none
      else some (.bytes (rest.take n), rest.drop n)
    else if b < 192 then
      let ll := b - 183
      if rest.length < ll then none
      else
        let n := natFromBytes (rest.take ll)
        let rest2 := rest.drop ll
        if rest2.length < n then none
        else some (.bytes (rest2.take n), rest2.drop n)
    else if b ≤ 247 then
      let n := b - 192
      if rest.length < n then none
      else
        match decItems fuel (rest.take n) with
        | some its => some (.list its, rest.drop n)
        | none => none
    else
      let ll := b - 247
      if rest.length < ll then none
      else
        let n := natFromBytes (rest.take ll)
        let rest2 := rest.drop ll
        if rest2.length < n then none
        else
          match decItems fuel (rest2.take n) with
          | some its => some (.list its, rest2.drop n)
          | none => none

/-- Fuel-indexed parser for a list body: parses items until the input is
exhausted (a list payload must be consumed exactly). -/
def decItems : Nat → List Nat → Option (List RLPItem)
  | 0, _ => none
  | _ + 1, [] => some []
  | fuel + 1, b :: rest =>
    match decItem fuel (b :: rest) with
    | some (it, rem) =>
      match decItems fuel rem with
      | some its => some (it :: its)
      | none => none
    | none => none

end

/-- RLP decoding of one item from a byte string, with enough fuel for any
input of that length. -/
def decodeItem (input : List Nat) : Option (RLPItem × List Nat) :=
  decItem (2 * input.length + 1) input

mutual

/-- Parser fuel sufficient to decode an encoded item. -/
def itemFuel : RLPItem → Nat
  | .bytes _ => 1
  | .list its => 1 + listFuel its

/-- Parser fuel sufficient to decode an encoded list body. -/
def listFuel : List RLPItem → Nat
  | [] => 1
  | it :: its => 1 + max (itemFuel it) (listFuel its)

end

mutual

/-- Well-formedness of an item for the codec: every byte-string node is
shorter than `2 ^ 64` (so its length-of-length prefix stays in the byte-string
range of the wire format). -/
def itemOK : RLPItem → Prop
  | .bytes bs => bs.length < 2 ^ 64
  | .list its => listOK its

/-- Well-formedness of a list of items. -/
def listOK : List RLPItem → Prop
  | [] => True
  | it :: its => itemOK it ∧ listOK its

end

theorem encodeItem_ne_nil (it : RLPItem) : encodeItem it ≠ [] := by
  cases it with
  | bytes bs =>
      simp only [encodeItem]
      split
      · rename_i h
        obtain ⟨b, rfl⟩ := List.length_eq_one.mp h.1
        simp
      · split <;> simp
  | list its =>
      simp only [encodeItem]
      split <;> simp

theorem natToBytes_length_le_eight {n : Nat} (h : n < 2 ^ 64) :
    (natToBytes n).length ≤ 8 := by
  apply natToBytes_length_le
  calc n < 2 ^ 64 := h
    _ = 256 ^ 8 := by norm_num

theorem one_le_itemFuel (it : RLPItem) : 1 ≤ itemFuel it := by
  cases it <;> simp [itemFuel]

theorem one_le_listFuel (its : List RLPItem) : 1 ≤ listFuel its := by
  cases its <;> simp [listFuel]

/-- Round trip of the RLP codec, by induction on parser fuel: decoding an
encoded item (with anything appended) returns the item and the appended
remainder, and decoding an encoded list body returns exactly its items. -/
theorem rlp_roundtrip_aux (fuel : Nat) :
    (∀ (it : RLPItem) (rest : List Nat), itemFuel it ≤ fuel → itemOK it →
      decItem fuel (encodeItem it ++ rest) = some (it, rest))
    ∧ (∀ its : List RLPItem, listFuel its ≤ fuel → listOK its →
      decItems fuel (encodeList its) = some its) := by
  induction fuel with
  | zero =>
      constructor
      · intro it rest hfuel hok
        exact absurd hfuel (by have := one_le_itemFuel it; omega)
      · intro its hfuel hok
        exact absurd hfuel (by have := one_le_listFuel its; omega)
  | succ f ih =>
      constructor
      · intro it rest hfuel hok
        cases it with
        | bytes bs =>
            by_cases h1 : bs.length = 1 ∧ bs.head! < 128
            · obtain ⟨b, rfl⟩ := List.length_eq_one.mp h1.1
              have hb : b < 128 := by simpa using h1.2
              rw [show encodeItem (.bytes [b]) = [b] by
                rw [encodeItem, if_pos h1]]
              simp only [List.cons_append, List.nil_append, decItem,
                if_pos hb]
            · by_cases h2 : bs.length ≤ 55
              · have henc : encodeItem (.bytes bs) = (128 + bs.length) :: bs := by
                  rw [encodeItem, if_neg h1, if_pos h2]
                rw [henc, List.cons_append]
                simp only [decItem]
                rw [if_neg (by omega), if_pos (by omega)]
                have hn : 128 + bs.length - 128 = bs.length := by omega
                rw [hn, if_neg (by simp)]
                rw [List.take_left, List.drop_left]
              · have henc : encodeItem (.bytes bs)
                    = (183 + (natToBytes bs.length).length)
                      :: (natToBytes bs.length ++ bs) := by
                  rw [encodeItem, if_neg h1, if_neg h2]
                rw [henc, List.cons_append]
                simp only [decItem]
                simp only [itemOK] at hok
                have hlen8 : (natToBytes bs.length).length ≤ 8 :=
                  natToBytes_length_le_eight hok
                have hpos : 0 < bs.length := by omega
                have hne : natToBytes bs.length ≠ [] := natToBytes_ne_nil hpos
                have hll : 1 ≤ (natToBytes bs.length).length :=
                  List.length_pos.mpr hne
                rw [if_neg (by omega), if_neg (by omega), if_pos (by omega)]
                have hn : 183 + (natToBytes bs.length).length - 183
                    = (natToBytes bs.length).length := by omega
                rw [hn, List.append_assoc,
                  if_neg (by simp only [List.length_append]; omega)]
                rw [List.take_left, List.drop_left, natFromBytes_natToBytes,
                  if_neg (by simp only [List.length_append]; omega)]
                rw [List.take_left, List.drop_left]
        | list its =>
            simp only [itemFuel] at hfuel
            have hf : listFuel its ≤ f := by omega
            simp only [itemOK] at hok
            have hrec := ih.2 its hf hok
            by_cases hp : (encodeList its).length ≤ 55
            · have henc : encodeItem (.list its)
                  = (192 + (encodeList its).length) :: encodeList its := by
                simp only [encodeItem]
                rw [if_pos hp]
              rw [henc, List.cons_append]
              simp only [decItem]
              rw [if_neg (by omega), if_neg (by omega), if_neg (by omega),
                if_pos (by omega)]
              have hn : 192 + (encodeList its).length - 192
                  = (encodeList its).length := by omega
              rw [hn, if_neg (by simp)]
              rw [List.take_left, List.drop_left, hrec]
            · have henc : encodeItem (.list its)
                  = (247 + (natToBytes (encodeList its).length).length)
                    :: (natToBytes (encodeList its).length ++ encodeList its) := by
                simp only [encodeItem]
                rw [if_neg hp]
              rw [henc, List.cons_append]
              simp only [decItem]
              have hpos : 0 < (encodeList its).length := by omega
              have hne : natToBytes (encodeList its).length ≠ [] :=
                natToBytes_ne_nil hpos
              have hll : 1 ≤ (natToBytes (encodeList its).length).length :=
                List.length_pos.mpr hne
              rw [if_neg (by omega), if_neg (by omega), if_neg (by omega),
                if_neg (by omega)]
              have hn : 247 + (natToBytes (encodeList its).length).length - 247
                  = (natToBytes (encodeList its).length).length := by omega
              rw [hn, List.append_assoc,
                if_neg (by simp only [List.length_append]; omega)]
              rw [List.take_left, List.drop_left, natFromBytes_natToBytes,
                if_neg (by simp only [List.length_append]; omega)]
              rw [List.take_left, List.drop_left, hrec]
      · intro its hfuel hok
        cases its with
        | nil => simp [encodeList, decItems]
        | cons it its2 =>
            simp only [listFuel] at hfuel
            simp only [listOK] at hok
            have hd := ih.1 it (encodeList its2) (by omega) hok.1
            have hr := ih.2 its2 (by omega) hok.2
            show decItems (f + 1) (encodeList (it :: its2)) = some (it :: its2)
            rw [encodeList]
            rcases henc : encodeItem it with _ | ⟨b, bs⟩
            · exact absurd henc (encodeItem_ne_nil it)
            · rw [henc] at hd
              rw [List.cons_append] at hd
              simp only [List.cons_append, List.append_eq, decItems, hd, hr]

/-- Round trip of the RLP item codec at any sufficient fuel. -/
theorem decItem_encodeItem (it : RLPItem) (rest : List Nat) (fuel : Nat)
    (hfuel : itemFuel it ≤ fuel) (hok : itemOK it) :
    decItem fuel (encodeItem it ++ rest) = some (it, rest) :=
  (rlp_roundtrip_aux fuel).1 it rest hfuel hok

theorem length_encodeItem_pos (it : RLPItem) : 0 < (encodeItem it).length :=
  List.length_pos.mpr (encodeItem_ne_nil it)

theorem length_encodeList_cons (it : RLPItem) (its : List RLPItem) :
    (encodeList (it :: its)).length
      = (encodeItem it).length + (encodeList its).length := by
  rw [encodeList]
  simp

theorem length_encodeItem_list (its : List RLPItem) :
    1 + (encodeList its).length ≤ (encodeItem (.list its)).length := by
  simp only [encodeItem]
  split <;> simp <;> omega

theorem sizeOf_RLPItem_pos (it : RLPItem) : 0 < sizeOf it := by
  cases it <;> simp

/-- The fuel bound of an item is dominated by (twice) the length of its
encoding, so length-derived fuel always suffices. -/
theorem fuel_le_encode_aux (n : Nat) :
    (∀ it : RLPItem, sizeOf it ≤ n →
      itemFuel it ≤ 2 * (encodeItem it).length)
    ∧ (∀ its : List RLPItem, sizeOf its ≤ n →
      listFuel its ≤ 1 + 2 * (encodeList its).length) := by
  induction n with
  | zero =>
      constructor
      · intro it hsz
        exact absurd hsz (by have := sizeOf_RLPItem_pos it; omega)
      · intro its hsz
        cases its <;> simp_all <;> omega
  | succ n ih =>
      constructor
      · intro it hsz
        cases it with
        | bytes bs =>
            have := length_encodeItem_pos (RLPItem.bytes bs)
            simp only [itemFuel]
            omega
        | list its =>
            have hsz2 : sizeOf its ≤ n := by
              have : sizeOf (RLPItem.list its) = 1 + sizeOf its := by simp
              omega
            have h1 := ih.2 its hsz2
            have h2 := length_encodeItem_list its
            simp only [itemFuel]
            omega
      · intro its hsz
        cases its with
        | nil => simp [listFuel]
        | cons it its2 =>
            have hsz1 : sizeOf it ≤ n := by
              have : sizeOf (it :: its2) = 1 + sizeOf it + sizeOf its2 := by
                simp
              have := sizeOf_RLPItem_pos it
              omega
            have hsz2 : sizeOf its2 ≤ n := by
              have : sizeOf (it :: its2) = 1 + sizeOf it + sizeOf its2 := by
                simp
              have := sizeOf_RLPItem_pos it
              omega
            have h1 := ih.1 it hsz1
            have h2 := ih.2 its2 hsz2
            have h3 := length_encodeItem_pos it
            simp only [listFuel, length_encodeList_cons]
            omega

/-- Decoding the encoding of a well-formed item returns the item and consumes
every byte. -/
theorem decodeItem_encodeItem (it : RLPItem) (hok : itemOK it) :
    decodeItem (encodeItem it) = some (it, []) := by
  have hb := (fuel_le_encode_aux (sizeOf it)).1 it (Nat.le_refl _)
  have := decItem_encodeItem it [] (2 * (encodeItem it).length + 1)
    (by omega) hok
  simpa [decodeItem] using this

/-- Modelled from the spec: RLP value of an unsigned integer — its big-endian
minimum-width byte string (spec section 6.2). -/
def natItem (n : Nat) : RLPItem := .bytes (natToBytes n)

/-- RLP value of an `Access` entry: the two fields in declaration order. -/
def accessToItem (a : Access) : RLPItem :=
  .list [.bytes a.account, .list (a.slots.map (fun s => .bytes s))]

/-- RLP value of an `Authorization`: its six fields in declaration order. -/
def authToItem (a : Authorization) : RLPItem :=
  .list [natItem a.chain_id, .bytes a.address, natItem a.nonce,
    natItem a.y_parity, natItem a.r, natItem a.s]

/-- RLP value of a `LegacyTransaction`: its nine fields in declaration order
(the collaborator `rlp.encode` serialises a record positionally). -/
def legacyToItem (tx : LegacyTransaction) : RLPItem :=
  .list [natItem tx.nonce, natItem tx.gas_price, natItem tx.gas,
    .bytes tx.«to», natItem tx.value, .bytes tx.data, natItem tx.v,
    natItem tx.r, natItem tx.s]

/-- RLP value of an `AccessListTransaction`: its eleven fields in declaration
order. -/
def atxToItem (tx : AccessListTransaction) : RLPItem :=
  .list [natItem tx.chain_id, natItem tx.nonce, natItem tx.gas_price,
    natItem tx.gas, .bytes tx.«to», natItem tx.value, .bytes tx.data,
    .list (tx.access_list.map accessToItem), natItem tx.y_parity,
    natItem tx.r, natItem tx.s]

/-- RLP value of a `FeeMarketTransaction`: its twelve fields in declaration
order. -/
def ftxToItem (tx : FeeMarketTransaction) : RLPItem :=
  .list [natItem tx.chain_id, natItem tx.nonce,
    natItem tx.max_priority_fee_per_gas, natItem tx.max_fee_per_gas,
    natItem tx.gas, .bytes tx.«to», natItem tx.value, .bytes tx.data,
    .list (tx.access_list.map accessToItem), natItem tx.y_parity,
    natItem tx.r, natItem tx.s]

/-- RLP value of a `BlobTransaction`: its fourteen fields in declaration
order. -/
def btxToItem (tx : BlobTransaction) : RLPItem :=
  .list [natItem tx.chain_id, natItem tx.nonce,
    natItem tx.max_priority_fee_per_gas, natItem tx.max_fee_per_gas,
    natItem tx.gas, .bytes tx.«to», natItem tx.value, .bytes tx.data,
    .list (tx.access_list.map accessToItem), natItem tx.max_fee_per_blob_gas,
    .list (tx.blob_versioned_hashes.map (fun h => .bytes h)),
    natItem tx.y_parity, natItem tx.r, natItem tx.s]

/-- RLP value of a `SetCodeTransaction`: its thirteen fields in declaration
order. -/
def stxToItem (tx : SetCodeTransaction) : RLPItem :=
  .list [natItem tx.chain_id, natItem tx.nonce,
    natItem tx.max_priority_fee_per_gas, natItem tx.max_fee_per_gas,
    natItem tx.gas, .bytes tx.«to», natItem tx.value, .bytes tx.data,
    .list (tx.access_list.map accessToItem),
    .list (tx.authorizations.map authToItem),
    natItem tx.y_parity, natItem tx.r, natItem tx.s]

/-- Modelled from the spec: RLP reconstruction of an unsigned integer field —
a byte-string node with no leading zero byte and, for fixed-width types, at
most `maxLen` bytes (spec section 6.2). -/
def natFromItem (maxLen : Option Nat) : RLPItem → Option Nat
  | .bytes [] => some 0
  | .bytes (b :: bs) =>
    if b = 0 then none
    else
      match maxLen with
      | some m =>
        if (b :: bs).length ≤ m then some (natFromBytes (b :: bs)) else none
      | none => some (natFromBytes (b :: bs))
  | .list _ => none

/-- RLP reconstruction of an unconstrained byte-string field (`Bytes`). -/
def bytesFromItem : RLPItem → Option (List Nat)
  | .bytes bs => some bs
  | .list _ => none

/-- RLP reconstruction of an `Address` field: exactly 20 bytes. -/
def addressFromItem : RLPItem → Option (List Nat)
  | .bytes bs => if bs.length = 20 then some bs else none
  | .list _ => none

/-- RLP reconstruction of a `Union[Bytes0, Address]` field: the empty string
(creation sentinel) or exactly 20 bytes. -/
def toFieldFromItem : RLPItem → Option (List Nat)
  | .bytes bs => if bs.length = 0 ∨ bs.length = 20 then some bs else none
  | .list _ => none

/-- RLP reconstruction of a `Bytes32` field: exactly 32 bytes. -/
def bytes32FromItem : RLPItem → Option (List Nat)
  | .bytes bs => if bs.length = 32 then some bs else none
  | .list _ => none

/-- RLP reconstruction of a homogeneous sequence: decode every element or
fail (how the collaborator decodes tuple-of-record fields). -/
def decodeSeq {α : Type} (f : RLPItem → Option α) : List RLPItem → Option (List α)
  | [] => some []
  | it :: its => do
      let x ← f it
      let xs ← decodeSeq f its
      pure (x :: xs)

/-- RLP reconstruction of an `Access` entry. -/
def accessFromItem : RLPItem → Option Access
  | .list [acc, .list slotItems] => do
      let account ← addressFromItem acc
      let slots ← decodeSeq bytes32FromItem slotItems
      pure ⟨account, slots⟩
  | _ => none

/-- RLP reconstruction of an `Authorization`. -/
def authFromItem : RLPItem → Option Authorization
  | .list [c, a, n, y, r, s] => do
      let chain_id ← natFromItem (some 8) c
      let address ← addressFromItem a
      let nonce ← natFromItem (some 8) n
      let y_parity ← natFromItem (some 1) y
      let rv ← natFromItem (some 32) r
      let sv ← natFromItem (some 32) s
      pure ⟨chain_id, address, nonce, y_parity, rv, sv⟩
  | _ => none

/-- RLP reconstruction of an `AccessListTransaction` from a decoded item. -/
def atxFromItem : RLPItem → Option AccessListTransaction
  | .list [c, n, gp, g, t, v, d, .list al, y, r, s] => do
      let chain_id ← natFromItem (some 8) c
      let nonce ← natFromItem (some 32) n
      let gas_price ← natFromItem none gp
      let gas ← natFromItem none g
      let toF ← toFieldFromItem t
      let value ← natFromItem (some 32) v
      let data ← bytesFromItem d
      let access_list ← decodeSeq accessFromItem al
      let y_parity ← natFromItem (some 32) y
      let rv ← natFromItem (some 32) r
      let sv ← natFromItem (some 32) s
      pure ⟨chain_id, nonce, gas_price, gas, toF, value, data, access_list,
        y_parity, rv, sv⟩
  | _ => none

/-- RLP reconstruction of a `FeeMarketTransaction` from a decoded item. -/
def ftxFromItem : RLPItem → Option FeeMarketTransaction
  | .list [c, n, mp, mf, g, t, v, d, .list al, y, r, s] => do
      let chain_id ← natFromItem (some 8) c
      let nonce ← natFromItem (some 32) n
      let max_priority ← natFromItem none mp
      let max_fee ← natFromItem none mf
      let gas ← natFromItem none g
      let toF ← toFieldFromItem t
      let value ← natFromItem (some 32) v
      let data ← bytesFromItem d
      let access_list ← decodeSeq accessFromItem al
      let y_parity ← natFromItem (some 32) y
      let rv ← natFromItem (some 32) r
      let sv ← natFromItem (some 32) s
      pure ⟨chain_id, nonce, max_priority, max_fee, gas, toF, value, data,
        access_list, y_parity, rv, sv⟩
  | _ => none

/-- RLP reconstruction of a `BlobTransaction` from a decoded item. -/
def btxFromItem : RLPItem → Option BlobTransaction
  | .list [c, n, mp, mf, g, t, v, d, .list al, mb, .list bh, y, r, s] => do
      let chain_id ← natFromItem (some 8) c
      let nonce ← natFromItem (some 32) n
      let max_priority ← natFromItem none mp
      let max_fee ← natFromItem none mf
      let gas ← natFromItem none g
      let toF ← addressFromItem t
      let value ← natFromItem (some 32) v
      let data ← bytesFromItem d
      let access_list ← decodeSeq accessFromItem al
      let max_blob ← natFromItem (some 32) mb
      let hashes ← decodeSeq bytes32FromItem bh
      let y_parity ← natFromItem (some 32) y
      let rv ← natFromItem (some 32) r
      let sv ← natFromItem (some 32) s
      pure ⟨chain_id, nonce, max_priority, max_fee, gas, toF, value, data,
        access_list, max_blob, hashes, y_parity, rv, sv⟩
  | _ => none

/-- RLP reconstruction of a `SetCodeTransaction` from a decoded item. -/
def stxFromItem : RLPItem → Option SetCodeTransaction
  | .list [c, n, mp, mf, g, t, v, d, .list al, .list au, y, r, s] => do
      let chain_id ← natFromItem (some 8) c
      let nonce ← natFromItem (some 8) n
      let max_priority ← natFromItem none mp
      let max_fee ← natFromItem none mf
      let gas ← natFromItem none g
      let toF ← addressFromItem t
      let value ← natFromItem (some 32) v
      let data ← bytesFromItem d
      let access_list ← decodeSeq accessFromItem al
      let authorizations ← decodeSeq authFromItem au
      let y_parity ← natFromItem (some 32) y
      let rv ← natFromItem (some 32) r
      let sv ← natFromItem (some 32) s
      pure ⟨chain_id, nonce, max_priority, max_fee, gas, toF, value, data,
        access_list, authorizations, y_parity, rv, sv⟩
  | _ => none

/-- Well-formed access entry: a 20-byte account and 32-byte slots. -/
abbrev accessWF (a : Access) : Prop :=
  a.account.length = 20 ∧ ∀ s ∈ a.slots, s.length = 32

/-- Well-formed authorization: field values within their declared widths. -/
abbrev authWF (a : Authorization) : Prop :=
  a.chain_id < 2 ^ 64 ∧ a.address.length = 20 ∧ a.nonce < 2 ^ 64
    ∧ a.y_parity < 2 ^ 8 ∧ a.r < 2 ^ 256 ∧ a.s < 2 ^ 256

/-- Well-formed `to` field of the flexible variants: the creation sentinel or
a 20-byte address. -/
abbrev toWF (t : List Nat) : Prop := t = [] ∨ t.length = 20

/-- Well-formed legacy transaction: numeric fields within their declared
widths (arbitrary-precision gas fields bounded by the 256-bit range that the
spec guarantees is never exceeded), `to` a sentinel or address, calldata of
representable length. -/
abbrev legacyWF (tx : LegacyTransaction) : Prop :=
  tx.nonce < 2 ^ 256 ∧ tx.gas_price < 2 ^ 256 ∧ tx.gas < 2 ^ 256
    ∧ toWF tx.«to» ∧ tx.value < 2 ^ 256 ∧ tx.data.length < 2 ^ 64
    ∧ tx.v < 2 ^ 256 ∧ tx.r < 2 ^ 256 ∧ tx.s < 2 ^ 256

/-- Well-formed access-list transaction. -/
abbrev atxWF (tx : AccessListTransaction) : Prop :=
  tx.chain_id < 2 ^ 64 ∧ tx.nonce < 2 ^ 256 ∧ tx.gas_price < 2 ^ 256
    ∧ tx.gas < 2 ^ 256 ∧ toWF tx.«to» ∧ tx.value < 2 ^ 256
    ∧ tx.data.length < 2 ^ 64 ∧ (∀ a ∈ tx.access_list, accessWF a)
    ∧ tx.y_parity < 2 ^ 256 ∧ tx.r < 2 ^ 256 ∧ tx.s < 2 ^ 256

/-- Well-formed fee-market transaction. -/
abbrev ftxWF (tx : FeeMarketTransaction) : Prop :=
  tx.chain_id < 2 ^ 64 ∧ tx.nonce < 2 ^ 256
    ∧ tx.max_priority_fee_per_gas < 2 ^ 256 ∧ tx.max_fee_per_gas < 2 ^ 256
    ∧ tx.gas < 2 ^ 256 ∧ toWF tx.«to» ∧ tx.value < 2 ^ 256
    ∧ tx.data.length < 2 ^ 64 ∧ (∀ a ∈ tx.access_list, accessWF a)
    ∧ tx.y_parity < 2 ^ 256 ∧ tx.r < 2 ^ 256 ∧ tx.s < 2 ^ 256

/-- Well-formed blob transaction: `to` must be a real address. -/
abbrev btxWF (tx : BlobTransaction) : Prop :=
  tx.chain_id < 2 ^ 64 ∧ tx.nonce < 2 ^ 256
    ∧ tx.max_priority_fee_per_gas < 2 ^ 256 ∧ tx.max_fee_per_gas < 2 ^ 256
    ∧ tx.gas < 2 ^ 256 ∧ tx.«to».length = 20 ∧ tx.value < 2 ^ 256
    ∧ tx.data.length < 2 ^ 64 ∧ (∀ a ∈ tx.access_list, accessWF a)
    ∧ tx.max_fee_per_blob_gas < 2 ^ 256
    ∧ (∀ h ∈ tx.blob_versioned_hashes, h.length = 32)
    ∧ tx.y_parity < 2 ^ 256 ∧ tx.r < 2 ^ 256 ∧ tx.s < 2 ^ 256

/-- Well-formed set-code transaction: 64-bit nonce, real address. -/
abbrev stxWF (tx : SetCodeTransaction) : Prop :=
  tx.chain_id < 2 ^ 64 ∧ tx.nonce < 2 ^ 64
    ∧ tx.max_priority_fee_per_gas < 2 ^ 256 ∧ tx.max_fee_per_gas < 2 ^ 256
    ∧ tx.gas < 2 ^ 256 ∧ tx.«to».length = 20 ∧ tx.value < 2 ^ 256
    ∧ tx.data.length < 2 ^ 64 ∧ (∀ a ∈ tx.access_list, accessWF a)
    ∧ (∀ a ∈ tx.authorizations, authWF a)
    ∧ tx.y_parity < 2 ^ 256 ∧ tx.r < 2 ^ 256 ∧ tx.s < 2 ^ 256

/-- Well-formedness of a transaction of any variant. -/
abbrev Transaction.wf : Transaction → Prop
  | .legacy tx => legacyWF tx
  | .accessList tx => atxWF tx
  | .feeMarket tx => ftxWF tx
  | .blob tx => btxWF tx
  | .setCode tx => stxWF tx

theorem natFromItem_none_natItem (n : Nat) :
    natFromItem none (natItem n) = some n := by
  by_cases h : n = 0
  · subst h
    rw [natItem, natToBytes]
    simp [natFromItem]
  · obtain ⟨b, bs, heq, hb⟩ := natToBytes_head_ne_zero n (by omega)
    rw [natItem, heq]
    simp only [natFromItem, if_neg hb]
    rw [← heq, natFromBytes_natToBytes]

theorem natFromItem_some_natItem (m n : Nat) (h : n < 256 ^ m) :
    natFromItem (some m) (natItem n) = some n := by
  by_cases h0 : n = 0
  · subst h0
    rw [natItem, natToBytes]
    simp [natFromItem]
  · obtain ⟨b, bs, heq, hb⟩ := natToBytes_head_ne_zero n (by omega)
    have hlen : (b :: bs).length ≤ m := by
      rw [← heq]
      exact natToBytes_length_le m n h
    rw [natItem, heq]
    simp only [natFromItem, if_neg hb, if_pos hlen]
    rw [← heq, natFromBytes_natToBytes]

theorem pow_256_32 : (256 : Nat) ^ 32 = 2 ^ 256 := by norm_num

theorem pow_256_8 : (256 : Nat) ^ 8 = 2 ^ 64 := by norm_num

theorem pow_256_1 : (256 : Nat) ^ 1 = 2 ^ 8 := by norm_num

theorem natFromItem_u256 {n : Nat} (h : n < 2 ^ 256) :
    natFromItem (some 32) (natItem n) = some n :=
  natFromItem_some_natItem 32 n (by rw [pow_256_32]; exact h)

theorem natFromItem_u64 {n : Nat} (h : n < 2 ^ 64) :
    natFromItem (some 8) (natItem n) = some n :=
  natFromItem_some_natItem 8 n (by rw [pow_256_8]; exact h)

theorem natFromItem_u8 {n : Nat} (h : n < 2 ^ 8) :
    natFromItem (some 1) (natItem n) = some n :=
  natFromItem_some_natItem 1 n (by rw [pow_256_1]; exact h)

theorem addressFromItem_bytes {bs : List Nat} (h : bs.length = 20) :
    addressFromItem (.bytes bs) = some bs := by
  simp [addressFromItem, h]

theorem toFieldFromItem_wf {bs : List Nat} (h : toWF bs) :
    toFieldFromItem (.bytes bs) = some bs := by
  rcases h with h | h <;> simp [toFieldFromItem, h]

theorem mapM_bytes32 (l : List (List Nat)) (h : ∀ s ∈ l, s.length = 32) :
    decodeSeq bytes32FromItem (l.map (fun s => RLPItem.bytes s)) = some l := by
  induction l with
  | nil => rfl
  | cons x xs ih =>
      have hx : x.length = 32 := h x (by simp)
      have ihh := ih (fun s hs => h s (by simp [hs]))
      simp [decodeSeq, bytes32FromItem, hx, ihh]

theorem accessFromItem_toItem (a : Access) (h : accessWF a) :
    accessFromItem (accessToItem a) = some a := by
  obtain ⟨h1, h2⟩ := h
  simp [accessToItem, accessFromItem, addressFromItem_bytes h1,
    mapM_bytes32 a.slots h2]

theorem mapM_access (l : List Access) (h : ∀ a ∈ l, accessWF a) :
    decodeSeq accessFromItem (l.map accessToItem) = some l := by
  induction l with
  | nil => rfl
  | cons x xs ih =>
      have hx := accessFromItem_toItem x (h x (by simp))
      have ihh := ih (fun a ha => h a (by simp [ha]))
      simp [decodeSeq, hx, ihh]

theorem authFromItem_toItem (a : Authorization) (h : authWF a) :
    authFromItem (authToItem a) = some a := by
  obtain ⟨h1, h2, h3, h4, h5, h6⟩ := h
  simp [authToItem, authFromItem, natFromItem_u64 h1,
    addressFromItem_bytes h2, natFromItem_u64 h3, natFromItem_u8 h4,
    natFromItem_u256 h5, natFromItem_u256 h6]

theorem mapM_auth (l : List Authorization) (h : ∀ a ∈ l, authWF a) :
    decodeSeq authFromItem (l.map authToItem) = some l := by
  induction l with
  | nil => rfl
  | cons x xs ih =>
      have hx := authFromItem_toItem x (h x (by simp))
      have ihh := ih (fun a ha => h a (by simp [ha]))
      simp [decodeSeq, hx, ihh]

theorem itemOK_natItem {n : Nat} (h : n < 2 ^ 256) : itemOK (natItem n) := by
  have hlen : (natToBytes n).length ≤ 32 :=
    natToBytes_length_le 32 n (by rw [pow_256_32]; exact h)
  simp only [natItem, itemOK]
  omega

theorem itemOK_bytes {bs : List Nat} (h : bs.length < 2 ^ 64) :
    itemOK (.bytes bs) := by
  simpa [itemOK] using h

theorem listOK_slots (l : List (List Nat)) (h : ∀ s ∈ l, s.length = 32) :
    listOK (l.map (fun s => RLPItem.bytes s)) := by
  induction l with
  | nil => simp [listOK]
  | cons x xs ih =>
      refine ⟨?_, ih (fun s hs => h s (by simp [hs]))⟩
      have hx : x.length = 32 := h x (by simp)
      exact itemOK_bytes (by omega)

theorem itemOK_access (a : Access) (h : accessWF a) :
    itemOK (accessToItem a) := by
  obtain ⟨h1, h2⟩ := h
  exact ⟨itemOK_bytes (by omega), listOK_slots a.slots h2, trivial⟩

theorem listOK_accessItems (l : List Access) (h : ∀ a ∈ l, accessWF a) :
    listOK (l.map accessToItem) := by
  induction l with
  | nil => simp [listOK]
  | cons x xs ih =>
      exact ⟨itemOK_access x (h x (by simp)),
        ih (fun a ha => h a (by simp [ha]))⟩

theorem itemOK_auth (a : Authorization) (h : authWF a) :
    itemOK (authToItem a) := by
  obtain ⟨h1, h2, h3, h4, h5, h6⟩ := h
  exact ⟨itemOK_natItem (by omega), itemOK_bytes (by omega),
    itemOK_natItem (by omega), itemOK_natItem (by omega), itemOK_natItem h5,
    itemOK_natItem h6, trivial⟩

theorem listOK_authItems (l : List Authorization) (h : ∀ a ∈ l, authWF a) :
    listOK (l.map authToItem) := by
  induction l with
  | nil => simp [listOK]
  | cons x xs ih =>
      exact ⟨itemOK_auth x (h x (by simp)),
        ih (fun a ha => h a (by simp [ha]))⟩

theorem atxFromItem_toItem (tx : AccessListTransaction) (h : atxWF tx) :
    atxFromItem (atxToItem tx) = some tx := by
  obtain ⟨h1, h2, h3, h4, h5, h6, h7, h8, h9, h10, h11⟩ := h
  simp [atxToItem, atxFromItem, natFromItem_u64 h1, natFromItem_u256 h2,
    natFromItem_none_natItem, toFieldFromItem_wf h5, natFromItem_u256 h6,
    bytesFromItem, mapM_access tx.access_list h8, natFromItem_u256 h9,
    natFromItem_u256 h10, natFromItem_u256 h11]

theorem ftxFromItem_toItem (tx : FeeMarketTransaction) (h : ftxWF tx) :
    ftxFromItem (ftxToItem tx) = some tx := by
  obtain ⟨h1, h2, h3, h4, h5, h6, h7, h8, h9, h10, h11, h12⟩ := h
  simp [ftxToItem, ftxFromItem, natFromItem_u64 h1, natFromItem_u256 h2,
    natFromItem_none_natItem, toFieldFromItem_wf h6, natFromItem_u256 h7,
    bytesFromItem, mapM_access tx.access_list h9, natFromItem_u256 h10,
    natFromItem_u256 h11, natFromItem_u256 h12]

theorem btxFromItem_toItem (tx : BlobTransaction) (h : btxWF tx) :
    btxFromItem (btxToItem tx) = some tx := by
  obtain ⟨h1, h2, h3, h4, h5, h6, h7, h8, h9, h10, h11, h12, h13, h14⟩ := h
  simp [btxToItem, btxFromItem, natFromItem_u64 h1, natFromItem_u256 h2,
    natFromItem_none_natItem, addressFromItem_bytes h6, natFromItem_u256 h7,
    bytesFromItem, mapM_access tx.access_list h9, natFromItem_u256 h10,
    mapM_bytes32 tx.blob_versioned_hashes h11, natFromItem_u256 h12,
    natFromItem_u256 h13, natFromItem_u256 h14]

theorem stxFromItem_toItem (tx : SetCodeTransaction) (h : stxWF tx) :
    stxFromItem (stxToItem tx) = some tx := by
  obtain ⟨h1, h2, h3, h4, h5, h6, h7, h8, h9, h10, h11, h12, h13⟩ := h
  simp [stxToItem, stxFromItem, natFromItem_u64 h1, natFromItem_u64 h2,
    natFromItem_none_natItem, addressFromItem_bytes h6, natFromItem_u256 h7,
    bytesFromItem, mapM_access tx.access_list h9, mapM_auth tx.authorizations h10,
    natFromItem_u256 h11, natFromItem_u256 h12, natFromItem_u256 h13]

theorem itemOK_toField {t : List Nat} (h : toWF t) : itemOK (RLPItem.bytes t) := by
  apply itemOK_bytes
  rcases h with h | h
  · simp [h]
  · omega

theorem itemOK_atx (tx : AccessListTransaction) (h : atxWF tx) :
    itemOK (atxToItem tx) := by
  obtain ⟨h1, h2, h3, h4, h5, h6, h7, h8, h9, h10, h11⟩ := h
  exact ⟨itemOK_natItem (by omega), itemOK_natItem h2, itemOK_natItem h3,
    itemOK_natItem h4, itemOK_toField h5, itemOK_natItem h6,
    itemOK_bytes h7, listOK_accessItems tx.access_list h8,
    itemOK_natItem h9, itemOK_natItem h10, itemOK_natItem h11, trivial⟩

theorem itemOK_ftx (tx : FeeMarketTransaction) (h : ftxWF tx) :
    itemOK (ftxToItem tx) := by
  obtain ⟨h1, h2, h3, h4, h5, h6, h7, h8, h9, h10, h11, h12⟩ := h
  exact ⟨itemOK_natItem (by omega), itemOK_natItem h2, itemOK_natItem h3,
    itemOK_natItem h4, itemOK_natItem h5, itemOK_toField h6,
    itemOK_natItem h7, itemOK_bytes h8, listOK_accessItems tx.access_list h9,
    itemOK_natItem h10, itemOK_natItem h11, itemOK_natItem h12, trivial⟩

theorem itemOK_btx (tx : BlobTransaction) (h : btxWF tx) :
    itemOK (btxToItem tx) := by
  obtain ⟨h1, h2, h3, h4, h5, h6, h7, h8, h9, h10, h11, h12, h13, h14⟩ := h
  exact ⟨itemOK_natItem (by omega), itemOK_natItem h2, itemOK_natItem h3,
    itemOK_natItem h4, itemOK_natItem h5, itemOK_bytes (by omega),
    itemOK_natItem h7, itemOK_bytes h8, listOK_accessItems tx.access_list h9,
    itemOK_natItem h10, listOK_slots tx.blob_versioned_hashes h11,
    itemOK_natItem h12, itemOK_natItem h13, itemOK_natItem h14, trivial⟩

theorem itemOK_stx (tx : SetCodeTransaction) (h : stxWF tx) :
    itemOK (stxToItem tx) := by
  obtain ⟨h1, h2, h3, h4, h5, h6, h7, h8, h9, h10, h11, h12, h13⟩ := h
  exact ⟨itemOK_natItem (by omega), itemOK_natItem (by omega),
    itemOK_natItem h3, itemOK_natItem h4, itemOK_natItem h5,
    itemOK_bytes (by omega), itemOK_natItem h7, itemOK_bytes h8,
    listOK_accessItems tx.access_list h9, listOK_authItems tx.authorizations h10,
    itemOK_natItem h11, itemOK_natItem h12, itemOK_natItem h13, trivial⟩

/-- The encoded form of a transaction (`Union[LegacyTransaction, Bytes]` in
the source): a legacy record left as-is, or typed-envelope bytes. -/
inductive EncodedTx where
  | legacy (tx : LegacyTransaction)
  | bytes (bs : List Nat)
  deriving DecidableEq, Repr

/-- The failure modes of `decode_transaction`: the spec-defined
`TransactionTypeError(byte)`, the out-of-range indexing failure of `tx[0]` on
empty input, and a failure inside the collaborator `rlp.decode_to`. -/
inductive DecodeError where
  | typeError (b : Nat)
  | indexOutOfRange
  | rlpError
  deriving DecidableEq, Repr

/-- Embedding of `encode_transaction`: legacy records pass through, typed
variants become the tag byte prepended (raw concatenation) to the RLP body. -/
def encode_transaction : Transaction → EncodedTx
  | .legacy tx => .legacy tx
  | .accessList tx => .bytes (1 :: encodeItem (atxToItem tx))
  | .feeMarket tx => .bytes (2 :: encodeItem (ftxToItem tx))
  | .blob tx => .bytes (3 :: encodeItem (btxToItem tx))
  | .setCode tx => .bytes (4 :: encodeItem (stxToItem tx))

/-- The collaborator call `rlp.decode_to(AccessListTransaction, bs)`: decode
one item consuming every byte, then rebuild the record. -/
def decode_to_atx (bs : List Nat) : Option AccessListTransaction :=
  match decodeItem bs with
  | some (it, []) => atxFromItem it
  | _ => none

/-- The collaborator call `rlp.decode_to(FeeMarketTransaction, bs)`. -/
def decode_to_ftx (bs : List Nat) : Option FeeMarketTransaction :=
  match decodeItem bs with
  | some (it, []) => ftxFromItem it
  | _ => none

/-- The collaborator call `rlp.decode_to(BlobTransaction, bs)`. -/
def decode_to_btx (bs : List Nat) : Option BlobTransaction :=
  match decodeItem bs with
  | some (it, []) => btxFromItem it
  | _ => none

/-- The collaborator call `rlp.decode_to(SetCodeTransaction, bs)`. -/
def decode_to_stx (bs : List Nat) : Option SetCodeTransaction :=
  match decodeItem bs with
  | some (it, []) => stxFromItem it
  | _ => none

/-- Embedding of `decode_transaction`: a legacy record passes through;
otherwise `tx[0]` is inspected (failing out of range on empty input), bytes
after the tag are RLP-decoded into the matching variant for tags 1-4, and any
other leading byte raises `TransactionTypeError` carrying that byte. -/
def decode_transaction : EncodedTx → Except DecodeError Transaction
  | .legacy tx => .ok (.legacy tx)
  | .bytes [] => .error .indexOutOfRange
  | .bytes (b :: rest) =>
    if b = 1 then
      match decode_to_atx rest with
      | some tx => .ok (.accessList tx)
      | none => .error .rlpError
    else if b = 2 then
      match decode_to_ftx rest with
      | some tx => .ok (.feeMarket tx)
      | none => .error .rlpError
    else if b = 3 then
      match decode_to_btx rest with
      | some tx => .ok (.blob tx)
      | none => .error .rlpError
    else if b = 4 then
      match decode_to_stx rest with
      | some tx => .ok (.setCode tx)
      | none => .error .rlpError
    else
      .error (.typeError b)

/-- C7: for every well-formed transaction of any of the five variants,
decoding its encoding returns it — typed variants round-trip through the
tagged envelope and the RLP codec, legacy records pass through unchanged. -/
theorem claim_C7_codec_roundtrip (tx : Transaction) (h : tx.wf) :
    decode_transaction (encode_transaction tx) = .ok tx := by
  cases tx with
  | legacy t => rfl
  | accessList t =>
      have hdec := decodeItem_encodeItem (atxToItem t) (itemOK_atx t h)
      have hfrom := atxFromItem_toItem t h
      simp [encode_transaction, decode_transaction, decode_to_atx, hdec, hfrom]
  | feeMarket t =>
      have hdec := decodeItem_encodeItem (ftxToItem t) (itemOK_ftx t h)
      have hfrom := ftxFromItem_toItem t h
      simp [encode_transaction, decode_transaction, decode_to_ftx, hdec, hfrom]
  | blob t =>
      have hdec := decodeItem_encodeItem (btxToItem t) (itemOK_btx t h)
      have hfrom := btxFromItem_toItem t h
      simp [encode_transaction, decode_transaction, decode_to_btx, hdec, hfrom]
  | setCode t =>
      have hdec := decodeItem_encodeItem (stxToItem t) (itemOK_stx t h)
      have hfrom := stxFromItem_toItem t h
      simp [encode_transaction, decode_transaction, decode_to_stx, hdec, hfrom]

/-- Concrete well-formed access-list transaction for the round-trip witness. -/
abbrev txRtW : Transaction :=
  .accessList {
    chain_id := 1, nonce := 7, gas_price := 10, gas := 30000,
    «to» := [17, 2, 3, 4, 5, 6, 7, 8, 9, 10, 11, 12, 13, 14, 15, 16, 17, 18,
      19, 20],
    value := 5, data := [0, 1, 200],
    access_list := [⟨[1, 2, 3, 4, 5, 6, 7, 8, 9, 10, 11, 12, 13, 14, 15, 16,
      17, 18, 19, 20],
      [[9, 9, 9, 9, 9, 9, 9, 9, 9, 9, 9, 9, 9, 9, 9, 9, 9, 9, 9, 9, 9, 9, 9,
        9, 9, 9, 9, 9, 9, 9, 9, 9]]⟩],
    y_parity := 1, r := 900, s := 901 }

theorem claim_C7_witness :
    decode_transaction (encode_transaction txRtW) = .ok txRtW :=
  claim_C7_codec_roundtrip txRtW (by decide)

/-- C6: `decode_transaction` routes typed-envelope bytes by their first byte —
tags 1 to 4 RLP-decode the remaining bytes into the matching variant, any
other leading byte fails with `TransactionTypeError` carrying that byte, and
a legacy record is returned unchanged. -/
theorem claim_C6_decode_dispatch :
    (∀ rest : List Nat, decode_transaction (.bytes (1 :: rest))
      = (decode_to_atx rest).elim (.error .rlpError)
          (fun tx => .ok (.accessList tx)))
    ∧ (∀ rest : List Nat, decode_transaction (.bytes (2 :: rest))
      = (decode_to_ftx rest).elim (.error .rlpError)
          (fun tx => .ok (.feeMarket tx)))
    ∧ (∀ rest : List Nat, decode_transaction (.bytes (3 :: rest))
      = (decode_to_btx rest).elim (.error .rlpError)
          (fun tx => .ok (.blob tx)))
    ∧ (∀ rest : List Nat, decode_transaction (.bytes (4 :: rest))
      = (decode_to_stx rest).elim (.error .rlpError)
          (fun tx => .ok (.setCode tx)))
    ∧ (∀ (b : Nat) (rest : List Nat), b ≠ 1 → b ≠ 2 → b ≠ 3 → b ≠ 4 →
      decode_transaction (.bytes (b :: rest)) = .error (.typeError b))
    ∧ (∀ tx : LegacyTransaction,
      decode_transaction (.legacy tx) = .ok (.legacy tx)) := by
  refine ⟨?_, ?_, ?_, ?_, ?_, ?_⟩
  · intro rest
    cases h : decode_to_atx rest <;> simp [decode_transaction, h]
  · intro rest
    cases h : decode_to_ftx rest <;> simp [decode_transaction, h]
  · intro rest
    cases h : decode_to_btx rest <;> simp [decode_transaction, h]
  · intro rest
    cases h : decode_to_stx rest <;> simp [decode_transaction, h]
  · intro b rest hb1 hb2 hb3 hb4
    simp [decode_transaction, hb1, hb2, hb3, hb4]
  · intro tx
    rfl

theorem claim_C6_witness :
    decode_transaction (.bytes [5]) = .error (.typeError 5) :=
  claim_C6_decode_dispatch.2.2.2.2.1 5 [] (by decide) (by decide) (by decide)
    (by decide)

/-- C9: any non-empty input whose first byte is not a known tag — including
the RLP list-prefix range `0xc0`-`0xff` that the caller normally routes away,
and the reserved range up to `0x7f` alike — fails with `TransactionTypeError`
carrying that first byte. -/
theorem claim_C9_unknown_first_byte (b : Nat) (rest : List Nat)
    (hb1 : b ≠ 1) (hb2 : b ≠ 2) (hb3 : b ≠ 3) (hb4 : b ≠ 4) :
    decode_transaction (.bytes (b :: rest)) = .error (.typeError b) := by
  simp [decode_transaction, hb1, hb2, hb3, hb4]

theorem claim_C9_witness :
    decode_transaction (.bytes (192 :: [1, 2, 3])) = .error (.typeError 192) :=
  claim_C9_unknown_first_byte 192 [1, 2, 3] (by decide) (by decide)
    (by decide) (by decide)

/-- C10: on the empty byte string, `decode_transaction` fails with the
out-of-range indexing error of the unguarded `tx[0]` access, not with
`TransactionTypeError` (nor any other spec-defined error kind). -/
theorem claim_C10_empty_input :
    decode_transaction (.bytes []) = .error .indexOutOfRange
      ∧ ∀ b : Nat, decode_transaction (.bytes []) ≠ .error (.typeError b) := by
  refine ⟨rfl, ?_⟩
  intro b
  simp [decode_transaction]

theorem claim_C10_witness :
    decode_transaction (.bytes []) = .error .indexOutOfRange :=
  claim_C10_empty_input.1

/-- Modelled from the spec: `SECP256K1N`, the secp256k1 group order (spec
section 6.3; the constant lives in the crypto collaborator, not under
`src/`). -/
def SECP256K1N : Nat :=
  115792089237316195423570985008687907852837564279074904382605163141518161494337

/-- The type of the `secp256k1_recover` collaborator: from `r`, `s`, the
recovery id and the 32-byte message hash to a 64-byte public key, failing on
unrecoverable signatures. -/
abbrev SecpRecover : Type :=
  Nat → Nat → Nat → List Nat → Except String (List Nat)

/-- The type of the `keccak256` collaborator. -/
abbrev Keccak : Type := List Nat → List Nat

/-- Embedding of `signing_hash_pre155`: keccak of the RLP list of the six
pre-EIP-155 signing fields. -/
def signing_hash_pre155 (keccak : Keccak) (tx : LegacyTransaction) : List Nat :=
  keccak (encodeItem (.list [natItem tx.nonce, natItem tx.gas_price,
    natItem tx.gas, .bytes tx.«to», natItem tx.value, .bytes tx.data]))

/-- Embedding of `signing_hash_155`: keccak of the RLP list of the six legacy
signing fields followed by `chain_id, 0, 0`. -/
def signing_hash_155 (keccak : Keccak) (tx : LegacyTransaction)
    (chain_id : Nat) : List Nat :=
  keccak (encodeItem (.list [natItem tx.nonce, natItem tx.gas_price,
    natItem tx.gas, .bytes tx.«to», natItem tx.value, .bytes tx.data,
    natItem chain_id, natItem 0, natItem 0]))

/-- Embedding of `signing_hash_2930`: keccak of the raw byte `0x01` prepended
to the RLP list of the eight EIP-2930 signing fields. -/
def signing_hash_2930 (keccak : Keccak) (tx : AccessListTransaction) :
    List Nat :=
  keccak (1 :: encodeItem (.list [natItem tx.chain_id, natItem tx.nonce,
    natItem tx.gas_price, natItem tx.gas, .bytes tx.«to», natItem tx.value,
    .bytes tx.data, .list (tx.access_list.map accessToItem)]))

/-- Embedding of `signing_hash_1559`: keccak of the raw byte `0x02` prepended
to the RLP list of the nine EIP-1559 signing fields. -/
def signing_hash_1559 (keccak : Keccak) (tx : FeeMarketTransaction) :
    List Nat :=
  keccak (2 :: encodeItem (.list [natItem tx.chain_id, natItem tx.nonce,
    natItem tx.max_priority_fee_per_gas, natItem tx.max_fee_per_gas,
    natItem tx.gas, .bytes tx.«to», natItem tx.value, .bytes tx.data,
    .list (tx.access_list.map accessToItem)]))

/-- Embedding of `signing_hash_4844`: keccak of the raw byte `0x03` prepended
to the RLP list of the eleven EIP-4844 signing fields. -/
def signing_hash_4844 (keccak : Keccak) (tx : BlobTransaction) : List Nat :=
  keccak (3 :: encodeItem (.list [natItem tx.chain_id, natItem tx.nonce,
    natItem tx.max_priority_fee_per_gas, natItem tx.max_fee_per_gas,
    natItem tx.gas, .bytes tx.«to», natItem tx.value, .bytes tx.data,
    .list (tx.access_list.map accessToItem), natItem tx.max_fee_per_blob_gas,
    .list (tx.blob_versioned_hashes.map (fun h => .bytes h))]))

/-- Embedding of `signing_hash_7702`: keccak of the raw byte `0x04` prepended
to the RLP list of the ten EIP-7702 signing fields. -/
def signing_hash_7702 (keccak : Keccak) (tx : SetCodeTransaction) : List Nat :=
  keccak (4 :: encodeItem (.list [natItem tx.chain_id, natItem tx.nonce,
    natItem tx.max_priority_fee_per_gas, natItem tx.max_fee_per_gas,
    natItem tx.gas, .bytes tx.«to», natItem tx.value, .bytes tx.data,
    .list (tx.access_list.map accessToItem),
    .list (tx.authorizations.map authToItem)]))

/-- Embedding of `recover_sender`: range-check `r` and `s`, dispatch on the
variant to validate `v`/`y_parity` and pick the signing hash, call the
`secp256k1_recover` collaborator, and return the last 20 bytes of the keccak
of the recovered public key. -/
def recover_sender (secp : SecpRecover) (keccak : Keccak) (chain_id : Nat)
    (tx : Transaction) : Except String (List Nat) := do
  let r := tx.r
  let s := tx.s
  if r = 0 ∨ SECP256K1N ≤ r then throw "bad r"
  if s = 0 ∨ SECP256K1N / 2 < s then throw "bad s"
  let public_key ←
    match tx with
    | .legacy t =>
      if t.v = 27 ∨ t.v = 28 then
        secp r s (t.v - 27) (signing_hash_pre155 keccak t)
      else
        let chain_id_x2 := chain_id * 2
        if t.v ≠ 35 + chain_id_x2 ∧ t.v ≠ 36 + chain_id_x2 then
          throw "bad v"
        else
          secp r s (t.v - 35 - chain_id_x2)
            (signing_hash_155 keccak t chain_id)
    | .accessList t =>
      if t.y_parity ≠ 0 ∧ t.y_parity ≠ 1 then throw "bad y_parity"
      else secp r s t.y_parity (signing_hash_2930 keccak t)
    | .feeMarket t =>
      if t.y_parity ≠ 0 ∧ t.y_parity ≠ 1 then throw "bad y_parity"
      else secp r s t.y_parity (signing_hash_1559 keccak t)
    | .blob t =>
      if t.y_parity ≠ 0 ∧ t.y_parity ≠ 1 then throw "bad y_parity"
      else secp r s t.y_parity (signing_hash_4844 keccak t)
    | .setCode t =>
      if t.y_parity ≠ 0 ∧ t.y_parity ≠ 1 then throw "bad y_parity"
      else secp r s t.y_parity (signing_hash_7702 keccak t)
  pure (((keccak public_key).drop 12).take 20)

/-- C3: for every variant, `recover_sender` rejects `r` outside `(0, N)` with
`"bad r"`, then `s` outside `(0, N/2]` with `"bad s"`, and for the four typed
variants rejects `y_parity` outside `{0, 1}` with `"bad y_parity"` — in each
case for every possible `secp256k1_recover` collaborator, so the failure is
decided before any recovery call can influence the result. -/
theorem claim_C3_signature_range_checks :
    (∀ (secp : SecpRecover) (keccak : Keccak) (cid : Nat) (tx : Transaction),
      (tx.r = 0 ∨ SECP256K1N ≤ tx.r) →
      recover_sender secp keccak cid tx = .error "bad r")
    ∧ (∀ (secp : SecpRecover) (keccak : Keccak) (cid : Nat) (tx : Transaction),
      0 < tx.r → tx.r < SECP256K1N → (tx.s = 0 ∨ SECP256K1N / 2 < tx.s) →
      recover_sender secp keccak cid tx = .error "bad s")
    ∧ (∀ (secp : SecpRecover) (keccak : Keccak) (cid : Nat)
        (t : AccessListTransaction),
      0 < t.r → t.r < SECP256K1N → 0 < t.s → t.s ≤ SECP256K1N / 2 →
      t.y_parity ≠ 0 → t.y_parity ≠ 1 →
      recover_sender secp keccak cid (.accessList t) = .error "bad y_parity")
    ∧ (∀ (secp : SecpRecover) (keccak : Keccak) (cid : Nat)
        (t : FeeMarketTransaction),
      0 < t.r → t.r < SECP256K1N → 0 < t.s → t.s ≤ SECP256K1N / 2 →
      t.y_parity ≠ 0 → t.y_parity ≠ 1 →
      recover_sender secp keccak cid (.feeMarket t) = .error "bad y_parity")
    ∧ (∀ (secp : SecpRecover) (keccak : Keccak) (cid : Nat)
        (t : BlobTransaction),
      0 < t.r → t.r < SECP256K1N → 0 < t.s → t.s ≤ SECP256K1N / 2 →
      t.y_parity ≠ 0 → t.y_parity ≠ 1 →
      recover_sender secp keccak cid (.blob t) = .error "bad y_parity")
    ∧ (∀ (secp : SecpRecover) (keccak : Keccak) (cid : Nat)
        (t : SetCodeTransaction),
      0 < t.r → t.r < SECP256K1N → 0 < t.s → t.s ≤ SECP256K1N / 2 →
      t.y_parity ≠ 0 → t.y_parity ≠ 1 →
      recover_sender secp keccak cid (.setCode t) = .error "bad y_parity") := by
  refine ⟨?_, ?_, ?_, ?_, ?_, ?_⟩
  · intro secp keccak cid tx h
    simp only [recover_sender]
    rw [if_pos h]
    simp [Bind.bind, Except.bind, throw, throwThe, MonadExcept.throw,
      MonadExceptOf.throw]
  · intro secp keccak cid tx hr1 hr2 hs
    simp only [recover_sender]
    rw [if_neg (by push_neg; exact ⟨by omega, by omega⟩), if_pos hs]
    simp [Bind.bind, Except.bind, throw, throwThe, MonadExcept.throw,
      MonadExceptOf.throw, pure, Except.pure]
  · intro secp keccak cid t hr1 hr2 hs1 hs2 hy0 hy1
    simp only [recover_sender, Transaction.r, Transaction.s]
    rw [if_neg (by push_neg; exact ⟨by omega, by omega⟩),
      if_neg (by push_neg; exact ⟨by omega, by omega⟩), if_pos ⟨hy0, hy1⟩]
    simp [Bind.bind, Except.bind, throw, throwThe, MonadExcept.throw,
      MonadExceptOf.throw, pure, Except.pure]
  · intro secp keccak cid t hr1 hr2 hs1 hs2 hy0 hy1
    simp only [recover_sender, Transaction.r, Transaction.s]
    rw [if_neg (by push_neg; exact ⟨by omega, by omega⟩),
      if_neg (by push_neg; exact ⟨by omega, by omega⟩), if_pos ⟨hy0, hy1⟩]
    simp [Bind.bind, Except.bind, throw, throwThe, MonadExcept.throw,
      MonadExceptOf.throw, pure, Except.pure]
  · intro secp keccak cid t hr1 hr2 hs1 hs2 hy0 hy1
    simp only [recover_sender, Transaction.r, Transaction.s]
    rw [if_neg (by push_neg; exact ⟨by omega, by omega⟩),
      if_neg (by push_neg; exact ⟨by omega, by omega⟩), if_pos ⟨hy0, hy1⟩]
    simp [Bind.bind, Except.bind, throw, throwThe, MonadExcept.throw,
      MonadExceptOf.throw, pure, Except.pure]
  · intro secp keccak cid t hr1 hr2 hs1 hs2 hy0 hy1
    simp only [recover_sender, Transaction.r, Transaction.s]
    rw [if_neg (by push_neg; exact ⟨by omega, by omega⟩),
      if_neg (by push_neg; exact ⟨by omega, by omega⟩), if_pos ⟨hy0, hy1⟩]
    simp [Bind.bind, Except.bind, throw, throwThe, MonadExcept.throw,
      MonadExceptOf.throw, pure, Except.pure]

/-- Constant collaborator used in signature witnesses: always recovers the
same 64-byte key. -/
abbrev secpW : SecpRecover := fun _ _ _ _ => .ok (List.replicate 64 1)

/-- Legacy transaction with `r = 0` witnessing the `"bad r"` rejection. -/
abbrev txBadRW : Transaction :=
  .legacy { nonce := 0, gas_price := 0, gas := 21000, «to» := [], value := 0,
            data := [], v := 27, r := 0, s := 1 }

theorem claim_C3_witness : recover_sender secpW id 1 txBadRW = .error "bad r" :=
  claim_C3_signature_range_checks.1 secpW id 1 txBadRW (Or.inl rfl)

/-- C4: for a legacy transaction with in-range `r` and `s`, `v = 27` or `28`
selects the pre-EIP-155 hash with recovery id `v − 27`; otherwise `v` must be
`35 + 2·chain_id + p` with `p ∈ {0, 1}`, selecting the EIP-155 hash (whose
preimage appends `chain_id, 0, 0` after the six legacy fields) with recovery
id `p`; every other `v` fails with `"bad v"`. -/
theorem claim_C4_legacy_v_dispatch (secp : SecpRecover) (keccak : Keccak)
    (cid : Nat) (t : LegacyTransaction)
    (hr1 : 0 < t.r) (hr2 : t.r < SECP256K1N)
    (hs1 : 0 < t.s) (hs2 : t.s ≤ SECP256K1N / 2) :
    ((t.v = 27 ∨ t.v = 28) →
      recover_sender secp keccak cid (.legacy t)
        = (secp t.r t.s (t.v - 27) (signing_hash_pre155 keccak t)).map
            (fun pk => ((keccak pk).drop 12).take 20))
    ∧ (∀ p : Nat, (p = 0 ∨ p = 1) → t.v = 35 + 2 * cid + p →
      recover_sender secp keccak cid (.legacy t)
        = (secp t.r t.s p (signing_hash_155 keccak t cid)).map
            (fun pk => ((keccak pk).drop 12).take 20))
    ∧ (t.v ≠ 27 → t.v ≠ 28 → t.v ≠ 35 + 2 * cid → t.v ≠ 36 + 2 * cid →
      recover_sender secp keccak cid (.legacy t) = .error "bad v")
    ∧ (∀ keccak2 : Keccak,
      signing_hash_155 keccak2 t cid
        = keccak2 (encodeItem (.list ([natItem t.nonce, natItem t.gas_price,
            natItem t.gas, .bytes t.«to», natItem t.value, .bytes t.data]
            ++ [natItem cid, natItem 0, natItem 0])))) := by
  refine ⟨?_, ?_, ?_, ?_⟩
  · intro hv
    simp only [recover_sender, Transaction.r, Transaction.s]
    rw [if_neg (by push_neg; exact ⟨by omega, by omega⟩),
      if_neg (by push_neg; exact ⟨by omega, by omega⟩), if_pos hv]
    cases hsec : secp t.r t.s (t.v - 27) (signing_hash_pre155 keccak t) <;>
      simp [Bind.bind, Except.bind, throw, throwThe, MonadExcept.throw,
        MonadExceptOf.throw, pure, Except.pure, Except.map, hsec]
  · intro p hp hv
    simp only [recover_sender, Transaction.r, Transaction.s]
    rw [if_neg (by push_neg; exact ⟨by omega, by omega⟩),
      if_neg (by push_neg; exact ⟨by omega, by omega⟩),
      if_neg (show ¬(t.v = 27 ∨ t.v = 28) by push_neg; omega),
      if_neg (show ¬(t.v ≠ 35 + cid * 2 ∧ t.v ≠ 36 + cid * 2) by
        push_neg
        intro h35
        omega)]
    have hsub : t.v - 35 - cid * 2 = p := by omega
    rw [hsub]
    cases hsec : secp t.r t.s p (signing_hash_155 keccak t cid) <;>
      simp [Bind.bind, Except.bind, throw, throwThe, MonadExcept.throw,
        MonadExceptOf.throw, pure, Except.pure, Except.map, hsec]
  · intro h27 h28 h35 h36
    simp only [recover_sender, Transaction.r, Transaction.s]
    rw [if_neg (by push_neg; exact ⟨by omega, by omega⟩),
      if_neg (by push_neg; exact ⟨by omega, by omega⟩),
      if_neg (show ¬(t.v = 27 ∨ t.v = 28) by push_neg; exact ⟨h27, h28⟩),
      if_pos (show t.v ≠ 35 + cid * 2 ∧ t.v ≠ 36 + cid * 2 by
        constructor <;> omega)]
    simp [Bind.bind, Except.bind, throw, throwThe, MonadExcept.throw,
      MonadExceptOf.throw, pure, Except.pure]
  · intro keccak2
    rfl

/-- Legacy transaction with `v = 37` (EIP-155 with chain id 1, parity 0) and
in-range signature components, for the dispatch witness. -/
abbrev ltxC4W : LegacyTransaction :=
  { nonce := 1, gas_price := 2, gas := 3, «to» := [], value := 4, data := [],
    v := 37, r := 1, s := 1 }

theorem claim_C4_witness :
    recover_sender secpW id 1 (.legacy ltxC4W)
      = (secpW 1 1 0 (signing_hash_155 id ltxC4W 1)).map
          (fun pk => ((id pk).drop 12).take 20) :=
  (claim_C4_legacy_v_dispatch secpW id 1 ltxC4W (by decide) (by decide)
    (by decide) (by decide)).2.1 0 (Or.inl rfl) (by decide)

/-- C5: each typed variant signs keccak of the raw concatenation of its
single tag byte (1, 2, 3, 4) with the RLP encoding of the spec-declared
signing fields in order; the tag byte sits outside the RLP list. -/
theorem claim_C5_typed_signing_preimages :
    (∀ (keccak : Keccak) (tx : AccessListTransaction),
      signing_hash_2930 keccak tx
        = keccak ([1] ++ encodeItem (.list [natItem tx.chain_id,
            natItem tx.nonce, natItem tx.gas_price, natItem tx.gas,
            .bytes tx.«to», natItem tx.value, .bytes tx.data,
            .list (tx.access_list.map accessToItem)])))
    ∧ (∀ (keccak : Keccak) (tx : FeeMarketTransaction),
      signing_hash_1559 keccak tx
        = keccak ([2] ++ encodeItem (.list [natItem tx.chain_id,
            natItem tx.nonce, natItem tx.max_priority_fee_per_gas,
            natItem tx.max_fee_per_gas, natItem tx.gas, .bytes tx.«to»,
            natItem tx.value, .bytes tx.data,
            .list (tx.access_list.map accessToItem)])))
    ∧ (∀ (keccak : Keccak) (tx : BlobTransaction),
      signing_hash_4844 keccak tx
        = keccak ([3] ++ encodeItem (.list [natItem tx.chain_id,
            natItem tx.nonce, natItem tx.max_priority_fee_per_gas,
            natItem tx.max_fee_per_gas, natItem tx.gas, .bytes tx.«to»,
            natItem tx.value, .bytes tx.data,
            .list (tx.access_list.map accessToItem),
            natItem tx.max_fee_per_blob_gas,
            .list (tx.blob_versioned_hashes.map (fun h => .bytes h))])))
    ∧ (∀ (keccak : Keccak) (tx : SetCodeTransaction),
      signing_hash_7702 keccak tx
        = keccak ([4] ++ encodeItem (.list [natItem tx.chain_id,
            natItem tx.nonce, natItem tx.max_priority_fee_per_gas,
            natItem tx.max_fee_per_gas, natItem tx.gas, .bytes tx.«to»,
            natItem tx.value, .bytes tx.data,
            .list (tx.access_list.map accessToItem),
            .list (tx.authorizations.map authToItem)]))) :=
  ⟨fun _ _ => rfl, fun _ _ => rfl, fun _ _ => rfl, fun _ _ => rfl⟩

end EthTx
